import Mathlib

/-!
# bbp_anim: text-to-particle animation

A shallow embedding of the glyph rasterizer (`fonts.cpp`), the colour
converter (`utils.cpp`) and the particle generator, trajectory precomputer
and animation state machine (`scene.cpp`).

Modelling conventions.

* `char` is a signed 8-bit integer and is represented by `Int`; a
  `std::string` is a `List Int` of character codes.
* `float` is represented by `Flt`: a finite value is an exact rational
  (rounding and overflow of binary32 are not modelled, and there is no
  negative zero), and the three IEEE 754 special values `+inf`, `-inf` and
  `NaN` are kept, with the IEEE rules for arithmetic and comparison on them
  (division by zero, `inf - inf`, comparisons with `NaN` being false).
* A decimal `float` literal stands for its decimal value (`0.025f` is
  `25/1000`).
* An `int` is an `Int`; its increment wraps at 32 bits and its conversion to
  `size_t` is taken modulo `2^64`.
* The font table `font8x8_basic` and the C math library functions `sqrtf`,
  `sinf` and the constant `std::_Pi` are not part of the repository: they
  are parameters of the definitions that use them.
* A callback invoked in a loop is represented by the list of the arguments
  it is invoked with, in order.
-/

namespace BbpAnim

/-! ## Floating-point values -/

/-- A `float`: an exact rational, or one of the IEEE special values. -/
inductive Flt where
  | fin (q : ℚ)
  | pinf
  | ninf
  | nan
  deriving DecidableEq

namespace Flt

/-- Unary minus. -/
def neg : Flt → Flt
  | fin a => fin (-a)
  | pinf => ninf
  | ninf => pinf
  | nan => nan

/-- IEEE addition (`inf + -inf` is `NaN`). -/
def add : Flt → Flt → Flt
  | fin a, fin b => fin (a + b)
  | nan, _ => nan
  | _, nan => nan
  | pinf, ninf => nan
  | ninf, pinf => nan
  | pinf, _ => pinf
  | _, pinf => pinf
  | ninf, _ => ninf
  | _, ninf => ninf

/-- IEEE subtraction. -/
def sub (a b : Flt) : Flt := add a (neg b)

/-- Product of an infinity of sign `pos` with the finite value `a`. -/
def infTimes (pos : Bool) (a : ℚ) : Flt :=
  if a = 0 then nan
  else if (0 < a) = pos then pinf
  else ninf

/-- IEEE multiplication (`0 * inf` is `NaN`). -/
def mul : Flt → Flt → Flt
  | fin a, fin b => fin (a * b)
  | nan, _ => nan
  | _, nan => nan
  | pinf, fin b => infTimes true b
  | ninf, fin b => infTimes false b
  | fin a, pinf => infTimes true a
  | fin a, ninf => infTimes false a
  | pinf, pinf => pinf
  | ninf, ninf => pinf
  | pinf, ninf => ninf
  | ninf, pinf => ninf

/-- IEEE division: a finite value divided by zero is an infinity of its
sign, `0 / 0` and `inf / inf` are `NaN`, a finite value divided by an
infinity is zero. -/
def div : Flt → Flt → Flt
  | fin a, fin b =>
    if b = 0 then
      (if a = 0 then nan else if 0 < a then pinf else ninf)
    else fin (a / b)
  | nan, _ => nan
  | _, nan => nan
  | fin _, pinf => fin 0
  | fin _, ninf => fin 0
  | pinf, fin b => if 0 ≤ b then pinf else ninf
  | ninf, fin b => if 0 ≤ b then ninf else pinf
  | pinf, pinf => nan
  | pinf, ninf => nan
  | ninf, pinf => nan
  | ninf, ninf => nan

/-- The comparison `a < b`; false when either side is `NaN`. -/
def lt : Flt → Flt → Bool
  | fin a, fin b => decide (a < b)
  | nan, _ => false
  | _, nan => false
  | ninf, ninf => false
  | ninf, _ => true
  | _, ninf => false
  | pinf, _ => false
  | _, pinf => true

/-- The comparison `a == b`; false when either side is `NaN`. -/
def eq : Flt → Flt → Bool
  | fin a, fin b => decide (a = b)
  | pinf, pinf => true
  | ninf, ninf => true
  | _, _ => false

/-- The comparison `a <= b`; false when either side is `NaN`. -/
def le (a b : Flt) : Bool := lt a b || eq a b

/-- The comparison `a >= b`; false when either side is `NaN`. -/
def ge (a b : Flt) : Bool := le b a

/-- The comparison `a > b`; false when either side is `NaN`. -/
def gt (a b : Flt) : Bool := lt b a

/-- `std::max(a, b)` is `(a < b) ? b : a`. -/
def max (a b : Flt) : Flt := if lt a b then b else a

/-- `std::min(a, b)` is `(b < a) ? b : a`. -/
def min (a b : Flt) : Flt := if lt b a then b else a

/-- Truncation of a rational towards zero. -/
def truncQ (q : ℚ) : ℤ := if 0 ≤ q then ⌊q⌋ else ⌈q⌉

/-- `std::fmodf(x, y)`: the remainder `x - trunc(x / y) * y` for finite `x`
and finite non-zero `y`, `x` itself for finite `x` and infinite `y`, and
`NaN` for an infinite `x`, a zero `y` or a `NaN` argument. -/
def fmodf : Flt → Flt → Flt
  | fin x, fin y => if y = 0 then nan else fin (x - (truncQ (x / y) : ℚ) * y)
  | nan, _ => nan
  | _, nan => nan
  | fin x, _ => fin x
  | _, _ => nan

/-- Conversion of an `int` (or `size_t`) to `float`. -/
def ofInt (i : Int) : Flt := fin (i : ℚ)

end Flt

/-! ## fonts.h / fonts.cpp -/

namespace fonts

/-- Letter width in pixels. -/
def lettersWidth : Int := 8

/-- Letter height in pixels. -/
def lettersHeight : Int := 8

/-- The font table `font8x8_basic[128][8]`, indexed by character code and
row; it comes from an external header and is a parameter. -/
abbrev FontTable := Nat → Nat → Nat

/-- The function `isValidLetter`. -/
def isValidLetter (letter : Int) : Bool :=
  decide (letter > 0) && decide (letter < 128)

/-- The function `getLetterScanLine`; the result is a `std::uint8_t`. -/
def getLetterScanLine (font : FontTable) (letter : Int) (line : Int) : Nat :=
  if isValidLetter letter && decide (line ≥ 0) && decide (line < lettersHeight) then
    font letter.toNat line.toNat % 256
  else 0

/-- Conversion of a `std::uint8_t` to (signed) `char`. -/
def toChar (v : Nat) : Int :=
  if v % 256 < 128 then ((v % 256 : Nat) : Int) else ((v % 256 : Nat) : Int) - 256

/-- The inner loop of `renderLetter`: `n` remaining iterations, the current
pixel column `x` and the current value of `line`; `line & 1` tests the low
bit and `line >>= 1` is an arithmetic shift. -/
def renderScanLine (y : Int) : Nat → Int → Int → List (Int × Int)
  | 0, _, _ => []
  | n + 1, x, line =>
    (if line % 2 ≠ 0 then [(x, y)] else []) ++ renderScanLine y n (x + 1) (line / 2)

/-- The outer loop of `renderLetter`: `n` remaining rows from row `y`. -/
def renderRows (font : FontTable) (letter : Int) : Nat → Int → List (Int × Int)
  | 0, _ => []
  | n + 1, y =>
    renderScanLine y lettersWidth.toNat 0 (toChar (getLetterScanLine font letter y))
      ++ renderRows font letter n (y + 1)

/-- The function `renderLetter`: the pixels passed to `pixelsCallback`. -/
def renderLetter (font : FontTable) (letter : Int) : List (Int × Int) :=
  renderRows font letter lettersHeight.toNat 0

/-- The constant `pixelSize` of `renderText`. -/
def pixelSize : Flt := Flt.div (Flt.fin 1) (Flt.ofInt lettersWidth)

/-- The loop of `renderText` from the cursor `(cursorX, cursorY)`. -/
def renderTextFrom (font : FontTable) : List Int → Flt → Flt → List (Flt × Flt)
  | [], _, _ => []
  | c :: rest, cursorX, cursorY =>
    if c = 10 then
      renderTextFrom font rest (Flt.fin 0) (Flt.add cursorY (Flt.fin 1))
    else
      (renderLetter font c).map (fun p =>
          (Flt.add cursorX (Flt.mul (Flt.ofInt p.1) pixelSize),
           Flt.add cursorY (Flt.mul (Flt.ofInt p.2) pixelSize)))
        ++ renderTextFrom font rest (Flt.add cursorX (Flt.fin 1)) cursorY

/-- The function `renderText`: the positions passed to `positionsCallback`. -/
def renderText (font : FontTable) (text : List Int) : List (Flt × Flt) :=
  renderTextFrom font text (Flt.fin 0) (Flt.fin 0)

end fonts

/-! ## Vectors (ospcommon) -/

/-- The type `ospcommon::vec2f`. -/
structure Vec2 where
  x : Flt
  y : Flt
  deriving DecidableEq

/-- The type `ospcommon::vec3f`. -/
structure Vec3 where
  x : Flt
  y : Flt
  z : Flt
  deriving DecidableEq

/-- The type `ospcommon::vec4f`. -/
structure Vec4 where
  x : Flt
  y : Flt
  z : Flt
  w : Flt
  deriving DecidableEq

/-- The C math library functions and constant used by the scene; they are
external to the repository and are parameters. -/
structure Libm where
  sqrtf : Flt → Flt
  sinf : Flt → Flt
  Pi : Flt

/-! ## utils.cpp -/

namespace utils

/-- The lambda `f` of `hsl2RGB`, with the captured `h`, `l` and `a`. -/
def hslChannel (h l a n : Flt) : Flt :=
  let k := Flt.fmodf (Flt.add n (Flt.div h (Flt.fin 30))) (Flt.fin 12)
  Flt.sub l
    (Flt.mul a
      (Flt.max
        (Flt.min (Flt.min (Flt.sub k (Flt.fin 3)) (Flt.sub (Flt.fin 9) k)) (Flt.fin 1))
        (Flt.fin (-1))))

/-- The function `hsl2RGB`. -/
def hsl2RGB (h s l : Flt) : Vec3 :=
  let a := Flt.mul s (Flt.min l (Flt.sub (Flt.fin 1) l))
  ⟨hslChannel h l a (Flt.fin 0), hslChannel h l a (Flt.fin 8), hslChannel h l a (Flt.fin 4)⟩

end utils

/-! ## scene.h / scene.cpp -/

namespace Scene

/-- The struct `Scene::Sphere`. -/
structure Sphere where
  center : Vec3
  radius : Flt
  color : Vec4
  speed : Vec3
  maxHeight : Flt
  velocity : Vec2
  endPos : Vec3
  refRadius : Flt
  fadeOffDuration : Flt
  positions : List Vec3
  deriving DecidableEq

/-- The value-initialised `Sphere` that `emplace_back()` creates. -/
def Sphere.zero : Sphere :=
  { center := ⟨Flt.fin 0, Flt.fin 0, Flt.fin 0⟩
    radius := Flt.fin 0
    color := ⟨Flt.fin 0, Flt.fin 0, Flt.fin 0, Flt.fin 0⟩
    speed := ⟨Flt.fin 0, Flt.fin 0, Flt.fin 0⟩
    maxHeight := Flt.fin 0
    velocity := ⟨Flt.fin 0, Flt.fin 0⟩
    endPos := ⟨Flt.fin 0, Flt.fin 0, Flt.fin 0⟩
    refRadius := Flt.fin 0
    fadeOffDuration := Flt.fin 0
    positions := [] }

/-- The member `_deltaTime = 0.025f`. -/
def _deltaTime : Flt := Flt.fin (25 / 1000)

/-- The three random numbers drawn for one sphere, in the order of the
calls: `fadeOffSpeedDistribution`, `xVelocityDistribution`,
`zVelocityDistribution`. The generator is external. -/
structure Draw where
  fadeOff : Flt
  xVel : Flt
  zVel : Flt

/-- `std::modff(y, &yInt)`: the pair (fractional part, integral part). -/
def modff : Flt → Flt × Flt
  | Flt.fin q => (Flt.fin (q - (Flt.truncQ q : ℚ)), Flt.fin (Flt.truncQ q : ℚ))
  | Flt.pinf => (Flt.fin 0, Flt.pinf)
  | Flt.ninf => (Flt.fin 0, Flt.ninf)
  | Flt.nan => (Flt.nan, Flt.nan)

/-- Constant `letterSize` of `generateSpheres`. -/
def letterSize : Flt := Flt.fin (2 / 10)
/-- Constant `lineHeight` of `generateSpheres`. -/
def lineHeight : Flt := Flt.fin (3 / 10)
/-- Constant `pixelSize` of `generateSpheres`. -/
def pixelSize : Flt := Flt.div letterSize (Flt.ofInt fonts.lettersWidth)
/-- Constant `sphereRadius` of `generateSpheres`. -/
def sphereRadius : Flt := Flt.mul (Flt.fin (48 / 100)) pixelSize
/-- Constant `destX` of `generateSpheres`. -/
def destX : Flt := Flt.fin (-2)
/-- Constant `destY` of `generateSpheres`. -/
def destY : Flt := Flt.fin (5 / 10)
/-- Constant `destZ` of `generateSpheres`. -/
def destZ : Flt := Flt.fin 0

/-- The body of the callback that `generateSpheres` passes to `renderText`:
the sphere created for the position `(x, y)` with the random draws `d`. -/
def newSphere (d : Draw) (x y : Flt) : Sphere :=
  let yFract := (modff y).1
  let yInt := (modff y).2
  let center : Vec3 :=
    ⟨Flt.add destX (Flt.mul letterSize x),
     Flt.sub (Flt.sub destY (Flt.mul letterSize yFract)) (Flt.mul lineHeight yInt),
     destZ⟩
  { Sphere.zero with
    radius := sphereRadius
    refRadius := sphereRadius
    center := center
    maxHeight := center.y
    endPos := center
    fadeOffDuration := d.fadeOff
    velocity := ⟨d.xVel, Flt.neg d.zVel⟩ }

/-- The spheres created by the `renderText` callback: the `j`-th invocation
uses the `j`-th triple of random draws. -/
def createSpheres (draws : Nat → Draw) : List (Flt × Flt) → Nat → List Sphere
  | [], _ => []
  | p :: rest, j => newSphere (draws j) p.1 p.2 :: createSpheres draws rest (j + 1)

/-- The rainbow loop of `generateSpheres`: `size` is `_spheres.size()` and
`i` the float counter. -/
def rainbowLoop (size : Nat) : List Sphere → Flt → List Sphere
  | [], _ => []
  | s :: rest, i =>
    let rgb := utils.hsl2RGB (Flt.div (Flt.mul (Flt.fin 180) i) (Flt.ofInt size))
      (Flt.fin 1) (Flt.fin (5 / 10))
    { s with color := ⟨rgb.x, rgb.y, rgb.z, Flt.fin 1⟩ }
      :: rainbowLoop size rest (Flt.add i (Flt.fin 1))

/-- The function `generateSpheres`, from an empty `_spheres`. -/
def generateSpheres (font : fonts.FontTable) (draws : Nat → Draw) (text : List Int) :
    List Sphere :=
  let spheres := createSpheres draws (fonts.renderText font text) 0
  rainbowLoop spheres.length spheres (Flt.fin 0)

/-- Constant `numFrames` of `computeAnimations`. -/
def numFrames : Nat := 150
/-- Constant `g` of `computeAnimations`. -/
def g : Flt := Flt.fin (981 / 100)

/-- The height `pos.y` that the inner loop of `computeAnimations` computes
for the sphere `s` at the time `t`. -/
def bounceHeight (m : Libm) (s : Sphere) (t : Flt) : Flt :=
  let maxHeight := Flt.add (Flt.fin 1) s.maxHeight
  let T := m.sqrtf (Flt.div (Flt.mul (Flt.fin 8) maxHeight) g)
  let Vmax := m.sqrtf (Flt.mul (Flt.mul (Flt.fin 2) maxHeight) g)
  let tRemainder := Flt.fmodf (Flt.add (Flt.mul (Flt.fin (5 / 10)) T) t) T
  Flt.add
    (Flt.sub (Flt.add (Flt.fin (-1)) s.radius)
      (Flt.mul (Flt.mul (Flt.mul (Flt.fin (5 / 10)) g) tRemainder) tRemainder))
    (Flt.mul Vmax tRemainder)

/-- The inner loop of `computeAnimations` for the sphere `s`: the frames in
the order they are computed, with `n` iterations left, the time `t` and the
running position `pos`. -/
def trajectoryLoop (m : Libm) (s : Sphere) : Nat → Flt → Vec3 → List Vec3
  | 0, _, _ => []
  | n + 1, t, pos =>
    let pos1 : Vec3 :=
      ⟨Flt.add pos.x (Flt.mul _deltaTime s.velocity.x), bounceHeight m s t,
       Flt.add pos.z (Flt.mul _deltaTime s.velocity.y)⟩
    pos1 :: trajectoryLoop m s n (Flt.add t _deltaTime) pos1

/-- The body of the outer loop of `computeAnimations`: the frames are
written through a reverse iterator, so the first one computed is the last
element of `positions`. -/
def computeAnimation (m : Libm) (s : Sphere) : Sphere :=
  { s with positions := (trajectoryLoop m s numFrames (Flt.fin 0) s.center).reverse }

/-- The function `computeAnimations`. -/
def computeAnimations (m : Libm) (spheres : List Sphere) : List Sphere :=
  spheres.map (computeAnimation m)

/-- The enum `AnimPhase`. -/
inductive AnimPhase where
  | playback
  | wave
  | delay
  | fadeOut
  | done
  deriving DecidableEq

/-- The data members of the class `AnimState`. -/
structure AnimState where
  phase : AnimPhase
  _t : Flt
  _t0 : Flt
  _playbackIndex : Int
  _waveX0 : Flt
  _waveX1 : Flt
  deriving DecidableEq

/-- The default member initialisers of `AnimState`. -/
def AnimState.init : AnimState :=
  { phase := AnimPhase.playback
    _t := Flt.fin 0
    _t0 := Flt.fin 0
    _playbackIndex := 0
    _waveX0 := Flt.fin 0
    _waveX1 := Flt.fin 0 }

/-- Conversion of an `int` to `size_t` (64 bits), as in the comparison
`_playbackIndex < s.positions.size()` and in `positions[_playbackIndex]`. -/
def toSizeT (i : Int) : Nat := (i % 2 ^ 64).toNat

/-- The increment of an `int`, wrapping in two's complement at 32 bits. -/
def incrInt (i : Int) : Int := (i + 1 + 2 ^ 31) % 2 ^ 32 - 2 ^ 31

/-- The loop of `doPlayback`: `updated` is the flag on entry. -/
def playbackLoop (idx : Nat) : List Sphere → Bool → Bool × List Sphere
  | [], updated => (updated, [])
  | s :: rest, updated =>
    if h : idx < s.positions.length then
      let r := playbackLoop idx rest true
      (r.1, { s with center := s.positions[idx] } :: r.2)
    else
      let r := playbackLoop idx rest updated
      (r.1, { s with center := s.endPos } :: r.2)

/-- The method `doPlayback`. -/
def doPlayback (st : AnimState) (spheres : List Sphere) :
    Bool × AnimState × List Sphere :=
  let r := playbackLoop (toSizeT st._playbackIndex) spheres false
  (r.1, { st with _playbackIndex := incrInt st._playbackIndex }, r.2)

/-- The value `dx` of the loop of `doWave` for one sphere:
`(s.center.x - _waveX0) / (_waveX1 - _waveX0)`. -/
def waveDx (waveX0 waveX1 : Flt) (s : Sphere) : Flt :=
  Flt.div (Flt.sub s.center.x waveX0) (Flt.sub waveX1 waveX0)

/-- The body of the loop of `doWave` for one sphere: the new sphere and
whether it was inside the wave window. -/
def waveStep (m : Libm) (waveX0 waveX1 tRel : Flt) (s : Sphere) : Bool × Sphere :=
  let waveWidth := Flt.fin (5 / 10)
  let waveStrength := Flt.fin (5 / 100)
  let waveSpeed := Flt.fin 1
  let scaleFactor := Flt.fin 2
  let dx := waveDx waveX0 waveX1 s
  let tWave := Flt.sub (Flt.mul tRel waveSpeed) dx
  if Flt.ge tWave (Flt.fin 0) && Flt.le tWave waveWidth then
    let tWave := Flt.div tWave waveWidth
    let wave :=
      Flt.add (Flt.fin 1)
        (m.sinf (Flt.mul m.Pi (Flt.sub (Flt.mul (Flt.fin 2) tWave) (Flt.fin (5 / 10)))))
    let a :=
      Flt.max (Flt.fin 0)
        (if Flt.lt tWave (Flt.fin (5 / 10)) then tWave else Flt.sub (Flt.fin 1) tWave)
    (true,
      { s with
        center := { s.center with z := Flt.add s.endPos.z (Flt.mul waveStrength wave) }
        radius := Flt.mul s.refRadius (Flt.add (Flt.fin 1) (Flt.mul scaleFactor a)) })
  else (false, s)

/-- The loop of `doWave`: `updated` is the flag on entry. -/
def waveLoop (m : Libm) (waveX0 waveX1 tRel : Flt) : List Sphere → Bool → Bool × List Sphere
  | [], updated => (updated, [])
  | s :: rest, updated =>
    let r := waveStep m waveX0 waveX1 tRel s
    let q := waveLoop m waveX0 waveX1 tRel rest (updated || r.1)
    (q.1, r.2 :: q.2)

/-- The method `doWave`. -/
def doWave (m : Libm) (st : AnimState) (spheres : List Sphere) :
    Bool × AnimState × List Sphere :=
  let st1 :=
    if Flt.eq st._waveX0 st._waveX1 && !spheres.isEmpty then
      match spheres.head?, spheres.getLast? with
      | some front, some back =>
        { st with _waveX0 := front.center.x, _waveX1 := back.center.x }
      | _, _ => st
    else st
  let tRel := Flt.sub st1._t st1._t0
  let r := waveLoop m st1._waveX0 st1._waveX1 tRel spheres false
  (r.1, st1, r.2)

/-- The body of the loop of `doFadeOut` for one sphere: the new sphere and
whether its scale is still positive. -/
def fadeStep (tRel : Flt) (s : Sphere) : Bool × Sphere :=
  let scale := Flt.max (Flt.fin 0) (Flt.sub (Flt.fin 1) (Flt.div tRel s.fadeOffDuration))
  (Flt.gt scale (Flt.fin 0), { s with radius := Flt.mul s.refRadius scale })

/-- The loop of `doFadeOut`: `updated` is the flag on entry. -/
def fadeLoop (tRel : Flt) : List Sphere → Bool → Bool × List Sphere
  | [], updated => (updated, [])
  | s :: rest, updated =>
    let r := fadeStep tRel s
    let q := fadeLoop tRel rest (updated || r.1)
    (q.1, r.2 :: q.2)

/-- The method `doFadeOut`. -/
def doFadeOut (st : AnimState) (spheres : List Sphere) :
    Bool × AnimState × List Sphere :=
  let tRel := Flt.sub st._t st._t0
  let r := fadeLoop tRel spheres false
  (r.1, st, r.2)

/-- The method `AnimState::operator()`: the returned flag, the new state of
the machine and the new spheres. -/
def AnimState.call (m : Libm) (st : AnimState) (spheres : List Sphere) (deltaTime : Flt) :
    Bool × AnimState × List Sphere :=
  let r : Bool × AnimState × List Sphere :=
    match st.phase with
    | AnimPhase.playback =>
      let p := doPlayback st spheres
      if !p.1 then
        (false, { p.2.1 with phase := AnimPhase.wave, _t0 := Flt.add p.2.1._t deltaTime }, p.2.2)
      else (false, p.2.1, p.2.2)
    | AnimPhase.wave =>
      let p := doWave m st spheres
      if !p.1 then
        (false, { p.2.1 with phase := AnimPhase.delay, _t0 := Flt.add p.2.1._t deltaTime }, p.2.2)
      else (false, p.2.1, p.2.2)
    | AnimPhase.delay =>
      if Flt.ge (Flt.sub st._t st._t0) (Flt.fin 1) then
        (false, { st with phase := AnimPhase.fadeOut, _t0 := Flt.add st._t deltaTime }, spheres)
      else (false, st, spheres)
    | AnimPhase.fadeOut =>
      let p := doFadeOut st spheres
      if !p.1 then (false, { p.2.1 with phase := AnimPhase.done }, p.2.2)
      else (false, p.2.1, p.2.2)
    | AnimPhase.done => (true, st, spheres)
  (!r.1, { r.2.1 with _t := Flt.add r.2.1._t deltaTime }, r.2.2)

/-- The animated part of the class `Scene`: the spheres and the state of the
animation. -/
structure State where
  _spheres : List Sphere
  _animState : AnimState
  deriving DecidableEq

/-- The method `Scene::tick`: the returned flag and the new scene. -/
def tick (m : Libm) (sc : State) : Bool × State :=
  let r := AnimState.call m sc._animState sc._spheres _deltaTime
  (r.1, { _spheres := r.2.2, _animState := r.2.1 })

/-- The scene after `n` calls of `tick`. -/
def ticks (m : Libm) : Nat → State → State
  | 0, sc => sc
  | n + 1, sc => ticks m n (tick m sc).2

end Scene

/-! ## Reference definitions for the glyph rasterizer, following the specification -/

namespace Spec

/-- The number of set bits among bits 0..7 of `v`. -/
def litBits (v : Nat) : Nat :=
  ((List.range 8).filter (fun (b : Nat) => v.testBit b)).length

/-- The number of lit pixels of the glyph of `c`: the set bits of its eight
scan lines. -/
def litPixelsOfLetter (font : fonts.FontTable) (c : Int) : Nat :=
  ((List.range 8).map (fun (y : Nat) => litBits (fonts.getLetterScanLine font c (y : Int)))).sum

/-- The number of lit pixels of the glyphs of a text; newlines have no glyph. -/
def litPixelsOfText (font : fonts.FontTable) (text : List Int) : Nat :=
  ((text.filter (fun c => decide (c ≠ 10))).map (litPixelsOfLetter font)).sum

/-- The column of a character: the number of non-newline characters between
the previous newline (or the start of the text) and it; `before` is the
text before the character. -/
def column (before : List Int) : Nat :=
  (before.reverse.takeWhile (fun c => decide (c ≠ 10))).length

/-- The line of a character: the number of newlines before it. -/
def line (before : List Int) : Nat :=
  before.count 10

/-- The positions of the lit pixels of the character `c` at column `k` on
line `r`: `(k + px/8, r + py/8)` for each pixel `(px, py)` that
`renderLetter` reports, in its order. -/
def letterPositions (font : fonts.FontTable) (k r : Nat) (c : Int) : List (Flt × Flt) :=
  (fonts.renderLetter font c).map (fun p =>
    (Flt.fin ((k : ℚ) + (p.1 : ℚ) / 8), Flt.fin ((r : ℚ) + (p.2 : ℚ) / 8)))

/-- The positions contributed by the character at index `i` of the text:
none for a newline. -/
def positionsAt (font : fonts.FontTable) (text : List Int) (i : Nat) : List (Flt × Flt) :=
  match text[i]? with
  | some c =>
    if c = 10 then []
    else letterPositions font (column (text.take i)) (line (text.take i)) c
  | none => []

/-- The lit pixels of the glyph of `c` in row-major order: rows 0..7 from
the top, and in each row the columns 0..7 whose bit is set. -/
def litPixels (font : fonts.FontTable) (c : Int) : List (Int × Int) :=
  (List.range 8).flatMap (fun (y : Nat) =>
    ((List.range 8).filter (fun (x : Nat) => (fonts.getLetterScanLine font c (y : Int)).testBit x)).map
      (fun (x : Nat) => ((x : Int), (y : Int))))

end Spec

/-! ## Sample data for evaluating the definitions -/

/-- A sample font table: the glyphs of `.` (code 46) and `A` (code 65) of
an 8x8 font, every other glyph blank, and a byte with the top bit set for
code 200, which is outside the valid range. -/
def sampleFont : fonts.FontTable := fun c y =>
  if c = 46 then [0x00, 0x00, 0x00, 0x00, 0x00, 0x0C, 0x0C, 0x00].getD y 0
  else if c = 65 then [0x0C, 0x1E, 0x33, 0x33, 0x3F, 0x33, 0x33, 0x00].getD y 0
  else if c = 200 then 0xFF
  else 0

namespace Spec

/-- The position of a phase in the order playback, wave, delay, fadeOut,
done. -/
def phaseRank : Scene.AnimPhase → Nat
  | Scene.AnimPhase.playback => 0
  | Scene.AnimPhase.wave => 1
  | Scene.AnimPhase.delay => 2
  | Scene.AnimPhase.fadeOut => 3
  | Scene.AnimPhase.done => 4

/-- The immediate successor of a phase in that order; `done` is last and has
none, it is mapped to itself. -/
def nextPhase : Scene.AnimPhase → Scene.AnimPhase
  | Scene.AnimPhase.playback => Scene.AnimPhase.wave
  | Scene.AnimPhase.wave => Scene.AnimPhase.delay
  | Scene.AnimPhase.delay => Scene.AnimPhase.fadeOut
  | Scene.AnimPhase.fadeOut => Scene.AnimPhase.done
  | Scene.AnimPhase.done => Scene.AnimPhase.done

/-- The fields of a particle that a tick must leave alone: color,
refRadius, velocity, maxHeight, endPos, fadeOffDuration and positions. -/
def immutablePart (s : Scene.Sphere) :
    Vec4 × Flt × Vec2 × Flt × Vec3 × Flt × List Vec3 :=
  (s.color, s.refRadius, s.velocity, s.maxHeight, s.endPos, s.fadeOffDuration, s.positions)

end Spec

/-- A stand-in for the math library, for evaluating the definitions on
examples: `sinf` is constantly 0, `sqrtf` is exact on the two squares 4/25
and 962361/250000 and is 0 elsewhere, and `Pi` is 355/113. -/
def sampleLibm : Libm :=
  { sqrtf := fun x =>
      if x = Flt.fin (4 / 25) then Flt.fin (2 / 5)
      else if x = Flt.fin (962361 / 250000) then Flt.fin (981 / 500)
      else Flt.fin 0
    sinf := fun _ => Flt.fin 0
    Pi := Flt.fin (355 / 113) }

/-- A sample sphere as `generateSpheres` creates it for the position
`(1/4, 5/8)`, with the random draws 1/2, 1/10 and 1. -/
def sampleSphere : Scene.Sphere :=
  Scene.newSphere ⟨Flt.fin (1 / 2), Flt.fin (1 / 10), Flt.fin 1⟩ (Flt.fin (1 / 4)) (Flt.fin (5 / 8))

namespace Spec

/-- The remainder `x mod 12` of a rational. -/
def mod12 (x : ℚ) : ℚ := x - 12 * (⌊x / 12⌋ : ℚ)

/-- The clamp of `x` to the interval `[lo, hi]`. -/
def clamp (x lo hi : ℚ) : ℚ := max lo (min x hi)

/-- One channel of the HSL to RGB conversion:
`l - a * clamp(min(k - 3, 9 - k), -1, 1)` with `a = s * min(l, 1 - l)` and
`k = (n + h / 30) mod 12`. -/
def hslChannel (h s l n : ℚ) : ℚ :=
  let a := s * min l (1 - l)
  let k := mod12 (n + h / 30)
  l - a * clamp (min (k - 3) (9 - k)) (-1) 1

end Spec

namespace Spec

/-- The condition on a particle before the first tick: a finite
`refRadius >= 0`, `radius = refRadius` and a finite `fadeOffDuration > 0`. -/
def startsAtRest (s : Scene.Sphere) : Bool :=
  match s.refRadius, s.fadeOffDuration with
  | Flt.fin R, Flt.fin d => decide (0 ≤ R) && decide (0 < d) && decide (s.radius = Flt.fin R)
  | _, _ => false

/-- The peak of the wave scale, `1 + scaleFactor * 0.5` with
`scaleFactor = 2`. -/
def maxScaleFactor : Flt :=
  Flt.add (Flt.fin 1) (Flt.mul (Flt.fin 2) (Flt.fin (5 / 10)))

/-- The range of the radius: `0 <= radius <= refRadius * maxScaleFactor`. -/
def radiusInRange (s : Scene.Sphere) : Bool :=
  Flt.le (Flt.fin 0) s.radius && Flt.le s.radius (Flt.mul s.refRadius maxScaleFactor)

/-- The invariant of a particle along the animation: finite
`refRadius >= 0`, finite `fadeOffDuration > 0` and a finite radius in
`[0, 2 * refRadius]`. -/
def SphereInv (s : Scene.Sphere) : Prop :=
  ∃ R d r : ℚ, s.refRadius = Flt.fin R ∧ 0 ≤ R ∧ s.fadeOffDuration = Flt.fin d ∧ 0 < d ∧
    s.radius = Flt.fin r ∧ 0 ≤ r ∧ r ≤ R * 2

/-- The invariant of the clock along the animation: the times are finite
and, in the fade-out phase, the phase did not start in the future. -/
def ClockInv (st : Scene.AnimState) : Prop :=
  ∃ t t0 : ℚ, st._t = Flt.fin t ∧ st._t0 = Flt.fin t0 ∧
    (st.phase = Scene.AnimPhase.fadeOut → t0 ≤ t)

end Spec

/-- A second sample sphere, for the position `(3/8, 5/8)` and the random
draws 1/4, 0 and 1. -/
def sampleSphere2 : Scene.Sphere :=
  Scene.newSphere ⟨Flt.fin (1 / 4), Flt.fin 0, Flt.fin 1⟩ (Flt.fin (3 / 8)) (Flt.fin (5 / 8))

namespace Spec

/-- The math library's `sqrtf` is exact at the rational `x`: it returns a
non-negative rational whose square is `x`. -/
def ExactSqrt (m : Libm) (x : ℚ) : Prop :=
  ∃ r : ℚ, m.sqrtf (Flt.fin x) = Flt.fin r ∧ 0 ≤ r ∧ r * r = x

end Spec

/-- A sample sphere at rest at height `-8038/10000`, for which the two
square roots of `computeAnimations` are rational (2/5 and 981/500). -/
def sampleSphere3 : Scene.Sphere :=
  { sampleSphere with
    center := ⟨Flt.fin (-2), Flt.fin (-8038 / 10000), Flt.fin 0⟩
    maxHeight := Flt.fin (-8038 / 10000)
    endPos := ⟨Flt.fin (-2), Flt.fin (-8038 / 10000), Flt.fin 0⟩ }

namespace Spec

/-- The unit cell of the letter at column `k` of line `r`: the position
`(x, y)` lies in it when `k <= x < k + 1` and `r <= y < r + 1`. -/
def inCell (k r : Nat) (p : Flt × Flt) : Bool :=
  Flt.le (Flt.fin (k : ℚ)) p.1 && Flt.lt p.1 (Flt.fin ((k : ℚ) + 1)) &&
    Flt.le (Flt.fin (r : ℚ)) p.2 && Flt.lt p.2 (Flt.fin ((r : ℚ) + 1))

end Spec

namespace Spec

/-- The minimum of `center.x` over the particles (`std::min` folded from the
first particle); none for the empty set. -/
def minCenterX : List Scene.Sphere → Option Flt
  | [] => none
  | s :: rest => some (rest.foldl (fun a p => Flt.min a p.center.x) s.center.x)

/-- The maximum of `center.x` over the particles (`std::max` folded from the
first particle); none for the empty set. -/
def maxCenterX : List Scene.Sphere → Option Flt
  | [] => none
  | s :: rest => some (rest.foldl (fun a p => Flt.max a p.center.x) s.center.x)

end Spec

/-- Sample random draws: the same triple 1/2, 1/10 and 1 for every sphere. -/
def sampleDraws : Nat → Scene.Draw :=
  fun _ => ⟨Flt.fin (1 / 2), Flt.fin (1 / 10), Flt.fin 1⟩

/-- The scene built for the two-line text `A`, newline, `.` in the sample
font, before the animations are computed (every trajectory buffer is
empty, so the playback ends at the first tick). -/
def sampleScene : Scene.State :=
  ⟨Scene.generateSpheres sampleFont sampleDraws [65, 10, 46], Scene.AnimState.init⟩

/-! # Theorems -/

/-! ## Arithmetic of finite values -/

namespace Flt

@[simp] theorem add_fin (a b : ℚ) : add (fin a) (fin b) = fin (a + b) := rfl

@[simp] theorem neg_fin (a : ℚ) : neg (fin a) = fin (-a) := rfl

@[simp] theorem sub_fin (a b : ℚ) : sub (fin a) (fin b) = fin (a - b) := by
  simp [sub, sub_eq_add_neg]

@[simp] theorem mul_fin (a b : ℚ) : mul (fin a) (fin b) = fin (a * b) := rfl

theorem div_fin (a b : ℚ) (hb : b ≠ 0) : div (fin a) (fin b) = fin (a / b) := by
  simp [div, hb]

@[simp] theorem lt_fin (a b : ℚ) : lt (fin a) (fin b) = decide (a < b) := rfl

@[simp] theorem eq_fin (a b : ℚ) : eq (fin a) (fin b) = decide (a = b) := rfl

@[simp] theorem le_fin (a b : ℚ) : le (fin a) (fin b) = decide (a ≤ b) := by
  simp only [le, lt_fin, eq_fin]
  by_cases h : a ≤ b
  · rcases lt_or_eq_of_le h with h1 | h1 <;> simp [h, h1]
  · have h1 : ¬ a < b := fun h2 => h (le_of_lt h2)
    have h2 : ¬ a = b := fun h2 => h (le_of_eq h2)
    simp [h, h1, h2]

@[simp] theorem ge_fin (a b : ℚ) : ge (fin a) (fin b) = decide (b ≤ a) := by
  simp [ge]

@[simp] theorem gt_fin (a b : ℚ) : gt (fin a) (fin b) = decide (b < a) := by
  simp [gt]

end Flt

/-! ## Glyph rasterizer -/

namespace fonts

theorem getLetterScanLine_lt (font : FontTable) (c y : Int) :
    getLetterScanLine font c y < 256 := by
  unfold getLetterScanLine
  split
  · exact Nat.mod_lt _ (by norm_num)
  · norm_num

/-- The row index only labels the pixels of a scan line. -/
theorem renderScanLine_row (y : Int) (n : Nat) (x line : Int) :
    renderScanLine y n x line = (renderScanLine 0 n x line).map (fun p => (p.1, y)) := by
  induction n generalizing x line with
  | zero => simp [renderScanLine]
  | succ n ih =>
    rw [renderScanLine, renderScanLine, ih]
    by_cases h : line % 2 = 0 <;> simp [h]

/-- The scan of one byte, checked on all 256 bytes: the columns reported are
those of the set bits, in increasing order. -/
theorem renderScanLine_byte : ∀ v : Fin 256,
    renderScanLine 0 8 0 (toChar v.val) =
      ((List.range 8).filter (fun (x : Nat) => v.val.testBit x)).map (fun (x : Nat) => ((x : Int), (0 : Int))) := by
  decide!

theorem renderScanLine_eq (y : Int) (v : Nat) (hv : v < 256) :
    renderScanLine y lettersWidth.toNat 0 (toChar v) =
      ((List.range 8).filter (fun (x : Nat) => v.testBit x)).map (fun (x : Nat) => ((x : Int), y)) := by
  have h := renderScanLine_byte ⟨v, hv⟩
  have h8 : lettersWidth.toNat = 8 := by decide
  rw [h8, renderScanLine_row, h]
  simp [List.map_map, Function.comp]

theorem renderRows_eq (font : FontTable) (c : Int) (n : Nat) (y0 : Nat) :
    renderRows font c n (y0 : Int) =
      (List.range n).flatMap (fun (j : Nat) =>
        ((List.range 8).filter
          (fun (x : Nat) => (getLetterScanLine font c ((y0 + j : Nat) : Int)).testBit x)).map
          (fun (x : Nat) => ((x : Int), ((y0 + j : Nat) : Int)))) := by
  induction n generalizing y0 with
  | zero => simp [renderRows]
  | succ n ih =>
    rw [renderRows, renderScanLine_eq _ _ (getLetterScanLine_lt font c _), List.range_succ_eq_map n]
    have h := ih (y0 + 1)
    simp only [Nat.cast_add, Nat.cast_one] at h
    simp only [List.flatMap_cons, List.flatMap_map, Nat.add_zero, Nat.cast_add, Nat.cast_one]
    rw [h]
    congr 1
    simp only [Nat.succ_eq_add_one, Nat.cast_add, Nat.cast_one, add_assoc, add_comm (1 : Int)]


/-- The pixels `renderLetter` reports are the lit pixels of the glyph in
row-major order. -/
theorem renderLetter_eq (font : FontTable) (c : Int) :
    renderLetter font c = Spec.litPixels font c := by
  have h := renderRows_eq font c 8 0
  simp only [Nat.cast_zero, Nat.zero_add] at h
  have h8 : lettersHeight.toNat = 8 := by decide
  rw [renderLetter, h8, h, Spec.litPixels]

theorem length_renderLetter (font : FontTable) (c : Int) :
    (renderLetter font c).length = Spec.litPixelsOfLetter font c := by
  rw [renderLetter_eq, Spec.litPixels, Spec.litPixelsOfLetter]
  simp [List.length_flatMap, Spec.litBits, Function.comp_def]

theorem length_renderTextFrom (font : FontTable) (text : List Int) (cx cy : Flt) :
    (renderTextFrom font text cx cy).length = Spec.litPixelsOfText font text := by
  induction text generalizing cx cy with
  | nil => simp [renderTextFrom, Spec.litPixelsOfText]
  | cons c rest ih =>
    rw [renderTextFrom]
    by_cases h : c = 10
    · simp only [h, if_true, ih]
      simp [Spec.litPixelsOfText]
    · simp only [h, if_false, List.length_append, List.length_map, ih, length_renderLetter]
      simp [Spec.litPixelsOfText, h]

end fonts

namespace Spec

theorem column_newline (before : List Int) : column (before ++ [10]) = 0 := by
  simp [column]

theorem column_letter (before : List Int) (c : Int) (h : c ≠ 10) :
    column (before ++ [c]) = column before + 1 := by
  simp [column, List.takeWhile_cons, h]

theorem line_newline (before : List Int) : line (before ++ [10]) = line before + 1 := by
  simp [line]

theorem line_letter (before : List Int) (c : Int) (h : c ≠ 10) :
    line (before ++ [c]) = line before := by
  simp [line, List.count_cons, h]

end Spec

namespace fonts

theorem pixelSize_eq : pixelSize = Flt.fin (1 / 8) := by
  simp [pixelSize, Flt.ofInt, Flt.div, lettersWidth]

/-- The positions a letter contributes when the cursor is at column `k` of
line `r`. -/
theorem map_renderLetter (font : FontTable) (c : Int) (k r : Nat) :
    (renderLetter font c).map (fun p =>
        (Flt.add (Flt.fin (k : ℚ)) (Flt.mul (Flt.ofInt p.1) pixelSize),
         Flt.add (Flt.fin (r : ℚ)) (Flt.mul (Flt.ofInt p.2) pixelSize)))
      = Spec.letterPositions font k r c := by
  rw [Spec.letterPositions]
  apply List.map_congr_left
  intro p _
  simp only [pixelSize_eq, Flt.ofInt, Flt.mul_fin, Flt.add_fin]
  congr 2 <;> ring

/-- The loop of `renderText`, started after the characters `before` have
been read, emits the positions of the remaining characters. -/
theorem renderTextFrom_eq (font : FontTable) (rest before : List Int) :
    renderTextFrom font rest (Flt.fin (Spec.column before : ℚ)) (Flt.fin (Spec.line before : ℚ)) =
      (List.range rest.length).flatMap
        (fun (i : Nat) => Spec.positionsAt font (before ++ rest) (before.length + i)) := by
  induction rest generalizing before with
  | nil => simp [renderTextFrom]
  | cons c rest ih =>
    have hstep : ∀ i : Nat,
        Spec.positionsAt font (before ++ c :: rest) (before.length + (i + 1)) =
          Spec.positionsAt font ((before ++ [c]) ++ rest) ((before ++ [c]).length + i) := by
      intro i
      simp [Nat.add_assoc, Nat.add_comm 1 i]
    have hhead : Spec.positionsAt font (before ++ c :: rest) (before.length + 0) =
        if c = 10 then [] else
          Spec.letterPositions font (Spec.column before) (Spec.line before) c := by
      have hget : (before ++ c :: rest)[before.length + 0]? = some c := by
        rw [Nat.add_zero, List.getElem?_append_right (Nat.le_refl _)]
        simp
      rw [Spec.positionsAt, hget]
      simp
    rw [List.length_cons, List.range_succ_eq_map, List.flatMap_cons, List.flatMap_map, hhead]
    simp only [Nat.succ_eq_add_one, hstep]
    rw [← ih (before ++ [c]), renderTextFrom]
    by_cases h : c = 10
    · subst h
      simp only [if_true, List.nil_append, Spec.column_newline, Spec.line_newline,
        Flt.add_fin, Nat.cast_zero, Nat.cast_add, Nat.cast_one]
    · simp only [h, if_false, Spec.column_letter _ _ h, Spec.line_letter _ _ h,
        Flt.add_fin, Nat.cast_add, Nat.cast_one, map_renderLetter]

end fonts

namespace Scene

theorem length_createSpheres (draws : Nat → Draw) (ps : List (Flt × Flt)) (j : Nat) :
    (createSpheres draws ps j).length = ps.length := by
  induction ps generalizing j with
  | nil => rfl
  | cons p rest ih => simp [createSpheres, ih]

theorem length_rainbowLoop (size : Nat) (spheres : List Sphere) (i : Flt) :
    (rainbowLoop size spheres i).length = spheres.length := by
  induction spheres generalizing i with
  | nil => rfl
  | cons s rest ih => simp [rainbowLoop, ih]

end Scene

/-- C1: for every text, the number of positions `renderText` passes to its
callback, and hence the number of spheres `generateSpheres` creates, is the
sum over the non-newline characters of the text and the rows 0..7 of the
number of set bits among bits 0..7 of the scan line. -/
theorem C1_particle_count (font : fonts.FontTable) (draws : Nat → Scene.Draw)
    (text : List Int) :
    (fonts.renderText font text).length = Spec.litPixelsOfText font text ∧
      (Scene.generateSpheres font draws text).length = Spec.litPixelsOfText font text := by
  have h := fonts.length_renderTextFrom font text (Flt.fin 0) (Flt.fin 0)
  refine ⟨h, ?_⟩
  simp only [Scene.generateSpheres, Scene.length_rainbowLoop, Scene.length_createSpheres]
  exact h

/-- C3: for a character code outside the valid range (`c <= 0`, which
includes the null character, or `c >= 128`), `getLetterScanLine` returns 0
for every row index and `renderLetter` reports no pixel. -/
theorem C3_invalid_letter_blank (font : fonts.FontTable) (c : Int) (hc : c ≤ 0 ∨ 128 ≤ c) :
    (∀ y : Int, fonts.getLetterScanLine font c y = 0) ∧ fonts.renderLetter font c = [] := by
  have h0 : ∀ y : Int, fonts.getLetterScanLine font c y = 0 := by
    intro y
    have hv : fonts.isValidLetter c = false := by
      simp only [fonts.isValidLetter, Bool.and_eq_false_iff, decide_eq_false_iff_not]
      omega
    simp [fonts.getLetterScanLine, hv]
  refine ⟨h0, ?_⟩
  rw [fonts.renderLetter_eq, Spec.litPixels]
  simp [h0]

/-- C3, at the null character and at code 200 of the sample font. -/
theorem C3_invalid_letter_blank_witness :
    ((∀ y : Int, fonts.getLetterScanLine sampleFont 0 y = 0) ∧
        fonts.renderLetter sampleFont 0 = []) ∧
      ((∀ y : Int, fonts.getLetterScanLine sampleFont 200 y = 0) ∧
        fonts.renderLetter sampleFont 200 = []) :=
  ⟨C3_invalid_letter_blank sampleFont 0 (by decide),
   C3_invalid_letter_blank sampleFont 200 (by decide)⟩

/-! ## Animation state machine: phases and frame -/

namespace Scene

theorem doPlayback_phase (st : AnimState) (spheres : List Sphere) :
    (doPlayback st spheres).2.1.phase = st.phase := rfl

theorem doWave_phase (m : Libm) (st : AnimState) (spheres : List Sphere) :
    (doWave m st spheres).2.1.phase = st.phase := by
  simp only [doWave]
  split
  · split <;> rfl
  · rfl

theorem doFadeOut_phase (st : AnimState) (spheres : List Sphere) :
    (doFadeOut st spheres).2.1.phase = st.phase := rfl

/-- One call keeps the phase or moves it to its successor. -/
theorem call_phase (m : Libm) (st : AnimState) (spheres : List Sphere) (dt : Flt) :
    (AnimState.call m st spheres dt).2.1.phase = st.phase ∨
      (AnimState.call m st spheres dt).2.1.phase = Spec.nextPhase st.phase := by
  cases hp : st.phase
  · simp only [AnimState.call, hp]
    split
    · right; rfl
    · left; simp [doPlayback_phase, hp]
  · simp only [AnimState.call, hp]
    split
    · right; rfl
    · left; simp [doWave_phase, hp]
  · simp only [AnimState.call, hp]
    split
    · right; rfl
    · left; simp [hp]
  · simp only [AnimState.call, hp]
    split
    · right; rfl
    · left; simp [doFadeOut_phase, hp]
  · left; simp [AnimState.call, hp]

theorem phaseRank_call (m : Libm) (st : AnimState) (spheres : List Sphere) (dt : Flt) :
    Spec.phaseRank st.phase ≤ Spec.phaseRank (AnimState.call m st spheres dt).2.1.phase := by
  rcases call_phase m st spheres dt with h | h
  · rw [h]
  · rw [h]
    cases st.phase <;> decide

theorem ticks_add (m : Libm) (n k : Nat) (sc : State) :
    ticks m (n + k) sc = ticks m k (ticks m n sc) := by
  induction n generalizing sc with
  | zero => simp [ticks]
  | succ n ih => rw [Nat.succ_add, ticks, ih, ticks]

theorem phaseRank_ticks (m : Libm) (k : Nat) (sc : State) :
    Spec.phaseRank sc._animState.phase ≤ Spec.phaseRank (ticks m k sc)._animState.phase := by
  induction k generalizing sc with
  | zero => exact Nat.le_refl _
  | succ k ih =>
    rw [ticks]
    exact Nat.le_trans (phaseRank_call m sc._animState sc._spheres _deltaTime)
      (ih (tick m sc).2)

theorem playbackLoop_frame (idx : Nat) (spheres : List Sphere) (u : Bool) :
    (playbackLoop idx spheres u).2.map Spec.immutablePart = spheres.map Spec.immutablePart := by
  induction spheres generalizing u with
  | nil => rfl
  | cons s rest ih =>
    rw [playbackLoop]
    split <;> simp [ih, Spec.immutablePart]

theorem waveStep_frame (m : Libm) (x0 x1 tRel : Flt) (s : Sphere) :
    Spec.immutablePart (waveStep m x0 x1 tRel s).2 = Spec.immutablePart s := by
  simp only [waveStep]
  split <;> rfl

theorem waveLoop_frame (m : Libm) (x0 x1 tRel : Flt) (spheres : List Sphere) (u : Bool) :
    (waveLoop m x0 x1 tRel spheres u).2.map Spec.immutablePart =
      spheres.map Spec.immutablePart := by
  induction spheres generalizing u with
  | nil => rfl
  | cons s rest ih => simp [waveLoop, ih, waveStep_frame]

theorem fadeLoop_frame (tRel : Flt) (spheres : List Sphere) (u : Bool) :
    (fadeLoop tRel spheres u).2.map Spec.immutablePart = spheres.map Spec.immutablePart := by
  induction spheres generalizing u with
  | nil => rfl
  | cons s rest ih => simp [fadeLoop, ih, fadeStep, Spec.immutablePart]

theorem call_frame (m : Libm) (st : AnimState) (spheres : List Sphere) (dt : Flt) :
    (AnimState.call m st spheres dt).2.2.map Spec.immutablePart =
      spheres.map Spec.immutablePart := by
  cases hp : st.phase
  · simp only [AnimState.call, hp]
    split <;> simp [doPlayback, playbackLoop_frame]
  · simp only [AnimState.call, hp]
    split <;> simp [doWave, waveLoop_frame]
  · simp only [AnimState.call, hp]
    split <;> rfl
  · simp only [AnimState.call, hp]
    split <;> simp [doFadeOut, fadeLoop_frame]
  · simp [AnimState.call, hp]

end Scene

/-- C4: one call of `AnimState::operator()` leaves the phase unchanged or
moves it to its immediate successor in the order playback, wave, delay,
fadeOut, done, so the rank of the phase never decreases along any number of
ticks and no phase is revisited; in the phase done the call leaves the phase
and every particle unchanged and returns false. -/
theorem C4_phase_monotonic (m : Libm) (st : Scene.AnimState) (spheres : List Scene.Sphere)
    (dt : Flt) :
    ((Scene.AnimState.call m st spheres dt).2.1.phase = st.phase ∨
        (Scene.AnimState.call m st spheres dt).2.1.phase = Spec.nextPhase st.phase) ∧
      (∀ (n k : Nat) (sc : Scene.State),
        Spec.phaseRank (Scene.ticks m n sc)._animState.phase ≤
          Spec.phaseRank (Scene.ticks m (n + k) sc)._animState.phase) ∧
      Scene.AnimState.call m { st with phase := Scene.AnimPhase.done } spheres dt =
        (false,
          { st with phase := Scene.AnimPhase.done, _t := Flt.add st._t dt },
          spheres) := by
  refine ⟨Scene.call_phase m st spheres dt, ?_, ?_⟩
  · intro n k sc
    rw [Scene.ticks_add]
    exact Scene.phaseRank_ticks m k _
  · simp [Scene.AnimState.call]

/-- C8: one tick leaves the number and the order of the particles unchanged
and, for every particle, leaves color, refRadius, velocity, maxHeight,
endPos, fadeOffDuration and positions unchanged. -/
theorem C8_tick_frame (m : Libm) (st : Scene.AnimState) (spheres : List Scene.Sphere)
    (dt : Flt) :
    (Scene.AnimState.call m st spheres dt).2.2.length = spheres.length ∧
      (Scene.AnimState.call m st spheres dt).2.2.map Spec.immutablePart =
        spheres.map Spec.immutablePart := by
  have h := Scene.call_frame m st spheres dt
  refine ⟨?_, h⟩
  have h2 := congrArg List.length h
  simpa using h2

/-! ## The empty particle set -/

namespace Scene

end Scene

namespace Flt

theorem min_fin (a b : ℚ) : min (fin a) (fin b) = fin (Min.min a b) := by
  simp only [min, lt_fin]
  by_cases h : b < a
  · simp [h, min_eq_right (le_of_lt h)]
  · simp [h, min_eq_left (not_lt.mp h)]

theorem max_fin (a b : ℚ) : max (fin a) (fin b) = fin (Max.max a b) := by
  simp only [max, lt_fin]
  by_cases h : a < b
  · simp [h, max_eq_right (le_of_lt h)]
  · simp [h, max_eq_left (not_lt.mp h)]

theorem fmodf_fin_twelve (x : ℚ) (hx : 0 ≤ x) :
    fmodf (fin x) (fin 12) = fin (Spec.mod12 x) := by
  have h12 : (12 : ℚ) ≠ 0 := by norm_num
  have h0 : (0 : ℚ) ≤ x / 12 := div_nonneg hx (by norm_num)
  simp only [fmodf, h12, if_false, truncQ, h0, if_true, Spec.mod12]
  congr 1
  ring

end Flt

namespace utils

/-- On finite arguments with a non-negative hue, a channel of `hsl2RGB` is
the channel of the reference formula. -/
theorem hslChannel_fin (h s l n : ℚ) (hh : 0 ≤ h) (hn : 0 ≤ n) :
    hslChannel (Flt.fin h) (Flt.fin l)
        (Flt.mul (Flt.fin s) (Flt.min (Flt.fin l) (Flt.sub (Flt.fin 1) (Flt.fin l)))) (Flt.fin n) =
      Flt.fin (Spec.hslChannel h s l n) := by
  have h30 : (30 : ℚ) ≠ 0 := by norm_num
  have hx : (0 : ℚ) ≤ n + h / 30 := add_nonneg hn (div_nonneg hh (by norm_num))
  simp only [hslChannel, Flt.div_fin _ _ h30, Flt.add_fin, Flt.fmodf_fin_twelve _ hx,
    Flt.sub_fin, Flt.min_fin, Flt.max_fin, Flt.mul_fin, Spec.hslChannel, Spec.clamp]
  rw [max_comm]

theorem hsl2RGB_fin (h s l : ℚ) (hh : 0 ≤ h) :
    hsl2RGB (Flt.fin h) (Flt.fin s) (Flt.fin l) =
      ⟨Flt.fin (Spec.hslChannel h s l 0), Flt.fin (Spec.hslChannel h s l 8),
        Flt.fin (Spec.hslChannel h s l 4)⟩ := by
  simp only [hsl2RGB, hslChannel_fin h s l 0 hh (le_refl 0),
    hslChannel_fin h s l 8 hh (by norm_num), hslChannel_fin h s l 4 hh (by norm_num)]

end utils

namespace Spec

theorem clamp_bounds (x : ℚ) : -1 ≤ clamp x (-1) 1 ∧ clamp x (-1) 1 ≤ 1 := by
  unfold clamp
  constructor
  · exact le_max_left _ _
  · exact max_le (by norm_num) (min_le_right _ _)

theorem hslChannel_bounds (h s l n : ℚ) (hs : 0 ≤ s ∧ s ≤ 1) (hl : 0 ≤ l ∧ l ≤ 1) :
    0 ≤ hslChannel h s l n ∧ hslChannel h s l n ≤ 1 := by
  obtain ⟨hc1, hc2⟩ := clamp_bounds (min (mod12 (n + h / 30) - 3) (9 - mod12 (n + h / 30)))
  simp only [hslChannel]
  generalize clamp (min (mod12 (n + h / 30) - 3) (9 - mod12 (n + h / 30))) (-1) 1 = c at hc1 hc2
  have hm0 : 0 ≤ min l (1 - l) := le_min hl.1 (by linarith [hl.2])
  have hm1 : min l (1 - l) ≤ l := min_le_left _ _
  have hm2 : min l (1 - l) ≤ 1 - l := min_le_right _ _
  generalize min l (1 - l) = q at hm0 hm1 hm2
  have ha0 : 0 ≤ s * q := mul_nonneg hs.1 hm0
  have ha1 : s * q ≤ q := by nlinarith [hs.2]
  have hb1 : s * q * c ≤ s * q := by nlinarith
  have hb2 : -(s * q) ≤ s * q * c := by nlinarith
  constructor <;> linarith

end Spec

/-- C9: for `h` in `[0, 360]`, `s` in `[0, 1]` and `l` in `[0, 1]`, the three
channels of `hsl2RGB(h, s, l)` are the values
`l - a * clamp(min(k - 3, 9 - k), -1, 1)` with `a = s * min(l, 1 - l)` and
`k = (n + h / 30) mod 12` for `n = 0, 8, 4`, and each lies in `[0, 1]`. -/
theorem C9_hsl_range (h s l : ℚ) (hh : 0 ≤ h ∧ h ≤ 360) (hs : 0 ≤ s ∧ s ≤ 1)
    (hl : 0 ≤ l ∧ l ≤ 1) :
    utils.hsl2RGB (Flt.fin h) (Flt.fin s) (Flt.fin l) =
        ⟨Flt.fin (Spec.hslChannel h s l 0), Flt.fin (Spec.hslChannel h s l 8),
          Flt.fin (Spec.hslChannel h s l 4)⟩ ∧
      (0 ≤ Spec.hslChannel h s l 0 ∧ Spec.hslChannel h s l 0 ≤ 1) ∧
      (0 ≤ Spec.hslChannel h s l 8 ∧ Spec.hslChannel h s l 8 ≤ 1) ∧
      (0 ≤ Spec.hslChannel h s l 4 ∧ Spec.hslChannel h s l 4 ≤ 1) :=
  ⟨utils.hsl2RGB_fin h s l hh.1, Spec.hslChannel_bounds h s l 0 hs hl,
    Spec.hslChannel_bounds h s l 8 hs hl, Spec.hslChannel_bounds h s l 4 hs hl⟩

/-- C9 at `h = 200`, `s = 3/4`, `l = 2/5`. -/
theorem C9_hsl_range_witness :
    utils.hsl2RGB (Flt.fin 200) (Flt.fin (3 / 4)) (Flt.fin (2 / 5)) =
        ⟨Flt.fin (Spec.hslChannel 200 (3 / 4) (2 / 5) 0),
          Flt.fin (Spec.hslChannel 200 (3 / 4) (2 / 5) 8),
          Flt.fin (Spec.hslChannel 200 (3 / 4) (2 / 5) 4)⟩ ∧
      (0 ≤ Spec.hslChannel 200 (3 / 4) (2 / 5) 0 ∧ Spec.hslChannel 200 (3 / 4) (2 / 5) 0 ≤ 1) ∧
      (0 ≤ Spec.hslChannel 200 (3 / 4) (2 / 5) 8 ∧ Spec.hslChannel 200 (3 / 4) (2 / 5) 8 ≤ 1) ∧
      (0 ≤ Spec.hslChannel 200 (3 / 4) (2 / 5) 4 ∧ Spec.hslChannel 200 (3 / 4) (2 / 5) 4 ≤ 1) :=
  C9_hsl_range 200 (3 / 4) (2 / 5) (by norm_num) (by norm_num) (by norm_num)

/-! ## Rainbow ramp -/

namespace Scene

end Scene

namespace Spec

end Spec

namespace Spec

theorem sphereInv_of_startsAtRest (s : Scene.Sphere) (h : startsAtRest s = true) :
    SphereInv s := by
  unfold startsAtRest at h
  split at h
  · rename_i R d hR hd
    simp only [Bool.and_eq_true, decide_eq_true_eq] at h
    exact ⟨R, d, R, hR, h.1.1, hd, h.1.2, h.2, h.1.1, by linarith [h.1.1]⟩
  · exact absurd h (by simp)

theorem radiusInRange_of_sphereInv (s : Scene.Sphere) (h : SphereInv s) :
    radiusInRange s = true := by
  obtain ⟨R, d, r, hR, _, _, _, hr, h0, h1⟩ := h
  simp only [radiusInRange, maxScaleFactor, hR, hr, Flt.mul_fin, Flt.add_fin, Flt.le_fin,
    Bool.and_eq_true, decide_eq_true_eq]
  constructor
  · exact h0
  · nlinarith

/-- A value inside the wave window is finite. -/
theorem window_fin (tw : Flt)
    (h : (Flt.ge tw (Flt.fin 0) && Flt.le tw (Flt.fin (5 / 10))) = true) :
    ∃ w : ℚ, tw = Flt.fin w ∧ 0 ≤ w ∧ w ≤ 5 / 10 := by
  cases tw with
  | fin w =>
    simp only [Flt.ge_fin, Flt.le_fin, Bool.and_eq_true, decide_eq_true_eq] at h
    exact ⟨w, rfl, h.1, h.2⟩
  | pinf => simp [Flt.ge, Flt.le, Flt.lt, Flt.eq] at h
  | ninf => simp [Flt.ge, Flt.le, Flt.lt, Flt.eq] at h
  | nan => simp [Flt.ge, Flt.le, Flt.lt, Flt.eq] at h

end Spec

namespace Scene

theorem playbackLoop_inv (idx : Nat) (spheres : List Sphere) (u : Bool)
    (h : ∀ s ∈ spheres, Spec.SphereInv s) :
    ∀ s ∈ (playbackLoop idx spheres u).2, Spec.SphereInv s := by
  induction spheres generalizing u with
  | nil => simp [playbackLoop]
  | cons s rest ih =>
    have hs : Spec.SphereInv s := h s (List.mem_cons_self _ _)
    have hrest : ∀ s ∈ rest, Spec.SphereInv s := fun x hx => h x (List.mem_cons_of_mem _ hx)
    rw [playbackLoop]
    split
    · intro x hx
      rcases List.mem_cons.mp hx with hx | hx
      · rw [hx]; exact hs
      · exact ih true hrest x hx
    · intro x hx
      rcases List.mem_cons.mp hx with hx | hx
      · rw [hx]; exact hs
      · exact ih u hrest x hx

theorem waveStep_inv (m : Libm) (x0 x1 tRel : Flt) (s : Sphere) (hs : Spec.SphereInv s) :
    Spec.SphereInv (waveStep m x0 x1 tRel s).2 := by
  simp only [waveStep]
  generalize Flt.sub (Flt.mul tRel (Flt.fin 1)) (waveDx x0 x1 s) = tw
  split
  · rename_i hwin
    obtain ⟨w, hw, hw0, hw1⟩ := Spec.window_fin tw hwin
    obtain ⟨R, d, r, hR, hR0, hd, hd0, _, _, _⟩ := hs
    subst hw
    have h5 : (5 / 10 : ℚ) ≠ 0 := by norm_num
    refine ⟨R, d,
      R * (1 + 2 * max 0 (if w / (5 / 10) < 5 / 10 then w / (5 / 10) else 1 - w / (5 / 10))),
      hR, hR0, hd, hd0, ?_, ?_, ?_⟩
    · simp only [hR, Flt.div_fin _ _ h5, Flt.lt_fin, Flt.sub_fin]
      rw [show (if decide (w / (5 / 10) < 5 / 10) = true then Flt.fin (w / (5 / 10))
            else Flt.fin (1 - w / (5 / 10))) =
          Flt.fin (if w / (5 / 10) < 5 / 10 then w / (5 / 10) else 1 - w / (5 / 10)) by
        by_cases hlt : w / (5 / 10) < 5 / 10 <;> simp [hlt]]
      simp only [Flt.max_fin, Flt.mul_fin, Flt.add_fin]
    · apply mul_nonneg hR0
      have : 0 ≤ max 0 (if w / (5 / 10) < 5 / 10 then w / (5 / 10) else 1 - w / (5 / 10)) :=
        le_max_left _ _
      linarith
    · have hmax : max 0 (if w / (5 / 10) < 5 / 10 then w / (5 / 10) else 1 - w / (5 / 10)) ≤
          1 / 2 := by
        apply max_le (by norm_num)
        split
        · rename_i hlt
          linarith
        · rename_i hge
          have : 5 / 10 ≤ w / (5 / 10) := not_lt.mp hge
          linarith
      nlinarith
  · exact hs

theorem waveLoop_inv (m : Libm) (x0 x1 tRel : Flt) (spheres : List Sphere) (u : Bool)
    (h : ∀ s ∈ spheres, Spec.SphereInv s) :
    ∀ s ∈ (waveLoop m x0 x1 tRel spheres u).2, Spec.SphereInv s := by
  induction spheres generalizing u with
  | nil => simp [waveLoop]
  | cons s rest ih =>
    have hs : Spec.SphereInv s := h s (List.mem_cons_self _ _)
    have hrest : ∀ s ∈ rest, Spec.SphereInv s := fun x hx => h x (List.mem_cons_of_mem _ hx)
    rw [waveLoop]
    intro x hx
    rcases List.mem_cons.mp hx with hx | hx
    · rw [hx]; exact waveStep_inv m x0 x1 tRel s hs
    · exact ih _ hrest x hx

theorem fadeStep_inv (tRel : ℚ) (h0 : 0 ≤ tRel) (s : Sphere) (hs : Spec.SphereInv s) :
    Spec.SphereInv (fadeStep (Flt.fin tRel) s).2 := by
  obtain ⟨R, d, r, hR, hR0, hd, hd0, _, _, _⟩ := hs
  have hq : 0 ≤ tRel / d := div_nonneg h0 (le_of_lt hd0)
  refine ⟨R, d, R * max 0 (1 - tRel / d), hR, hR0, hd, hd0, ?_, ?_, ?_⟩
  · simp only [fadeStep, hR, hd, Flt.div_fin _ _ (ne_of_gt hd0), Flt.sub_fin, Flt.max_fin,
      Flt.mul_fin]
  · exact mul_nonneg hR0 (le_max_left _ _)
  · have hmax : max 0 (1 - tRel / d) ≤ 1 := max_le (by norm_num) (by linarith)
    nlinarith

theorem fadeLoop_inv (tRel : ℚ) (h0 : 0 ≤ tRel) (spheres : List Sphere) (u : Bool)
    (h : ∀ s ∈ spheres, Spec.SphereInv s) :
    ∀ s ∈ (fadeLoop (Flt.fin tRel) spheres u).2, Spec.SphereInv s := by
  induction spheres generalizing u with
  | nil => simp [fadeLoop]
  | cons s rest ih =>
    have hs : Spec.SphereInv s := h s (List.mem_cons_self _ _)
    have hrest : ∀ s ∈ rest, Spec.SphereInv s := fun x hx => h x (List.mem_cons_of_mem _ hx)
    rw [fadeLoop]
    intro x hx
    rcases List.mem_cons.mp hx with hx | hx
    · rw [hx]; exact fadeStep_inv tRel h0 s hs
    · exact ih _ hrest x hx

theorem doWave_clock (m : Libm) (st : AnimState) (spheres : List Sphere) :
    (doWave m st spheres).2.1._t = st._t ∧ (doWave m st spheres).2.1._t0 = st._t0 := by
  simp only [doWave]
  split
  · split <;> exact ⟨rfl, rfl⟩
  · exact ⟨rfl, rfl⟩

/-- One call with a finite, non-negative time step keeps the invariants. -/
theorem call_inv (m : Libm) (st : AnimState) (spheres : List Sphere) (dt : ℚ) (hdt : 0 ≤ dt)
    (hc : Spec.ClockInv st) (h : ∀ s ∈ spheres, Spec.SphereInv s) :
    Spec.ClockInv (AnimState.call m st spheres (Flt.fin dt)).2.1 ∧
      ∀ s ∈ (AnimState.call m st spheres (Flt.fin dt)).2.2, Spec.SphereInv s := by
  obtain ⟨t, t0, ht, ht0, hfade⟩ := hc
  cases hp : st.phase
  · simp only [AnimState.call, hp]
    split
    · refine ⟨⟨t + dt, t + dt, ?_, ?_, fun _ => le_refl _⟩, playbackLoop_inv _ _ _ h⟩
      · simp [doPlayback, ht]
      · simp [doPlayback, ht]
    · refine ⟨⟨t + dt, t0, ?_, ?_, ?_⟩, playbackLoop_inv _ _ _ h⟩
      · simp [doPlayback, ht]
      · simp [doPlayback, ht0]
      · simp [doPlayback, hp]
  · have hclk := doWave_clock m st spheres
    have hph := doWave_phase m st spheres
    have hsph : ∀ s ∈ (doWave m st spheres).2.2, Spec.SphereInv s := by
      simp only [doWave]
      exact waveLoop_inv m _ _ _ spheres false h
    simp only [AnimState.call, hp]
    split
    · refine ⟨⟨t + dt, t + dt, ?_, ?_, fun _ => le_refl _⟩, hsph⟩
      · simp [hclk.1, ht]
      · simp [hclk.1, ht]
    · refine ⟨⟨t + dt, t0, ?_, ?_, ?_⟩, hsph⟩
      · simp [hclk.1, ht]
      · simp [hclk.2, ht0]
      · simp [hph, hp]
  · simp only [AnimState.call, hp]
    split
    · refine ⟨⟨t + dt, t + dt, ?_, ?_, fun _ => le_refl _⟩, h⟩
      · simp [ht]
      · simp [ht]
    · refine ⟨⟨t + dt, t0, ?_, ?_, ?_⟩, h⟩
      · simp [ht]
      · simp [ht0]
      · simp [hp]
  · have hle : t0 ≤ t := hfade hp
    have hsph : ∀ s ∈ (doFadeOut st spheres).2.2, Spec.SphereInv s := by
      simp only [doFadeOut, ht, ht0, Flt.sub_fin]
      exact fadeLoop_inv (t - t0) (by linarith) spheres false h
    simp only [AnimState.call, hp]
    split
    · refine ⟨⟨t + dt, t0, ?_, ?_, ?_⟩, hsph⟩
      · simp [doFadeOut, ht]
      · simp [doFadeOut, ht0]
      · simp
    · refine ⟨⟨t + dt, t0, ?_, ?_, fun _ => by linarith⟩, hsph⟩
      · simp [doFadeOut, ht]
      · simp [doFadeOut, ht0]
  · simp only [AnimState.call, hp]
    refine ⟨⟨t + dt, t0, ?_, ?_, ?_⟩, h⟩
    · simp [ht]
    · simp [ht0]
    · simp [hp]

theorem ticks_inv (m : Libm) (n : Nat) (sc : State) (hc : Spec.ClockInv sc._animState)
    (h : ∀ s ∈ sc._spheres, Spec.SphereInv s) :
    ∀ s ∈ (ticks m n sc)._spheres, Spec.SphereInv s := by
  induction n generalizing sc with
  | zero => exact h
  | succ n ih =>
    rw [ticks]
    have hstep := call_inv m sc._animState sc._spheres (25 / 1000) (by norm_num) hc h
    exact ih (tick m sc).2 hstep.1 hstep.2

end Scene

/-- C7: in every state reached by ticking from the initial animation state
over particles that each have a finite `refRadius >= 0`, `radius = refRadius`
and a finite `fadeOffDuration > 0`, every particle satisfies
`0 <= radius <= refRadius * maxScaleFactor` with
`maxScaleFactor = 1 + scaleFactor * 0.5 = 2`; the fade-out never makes a
radius negative. -/
theorem C7_radius_range (m : Libm) (spheres : List Scene.Sphere)
    (h : ∀ s ∈ spheres, Spec.startsAtRest s = true) (n : Nat) :
    ∀ s ∈ (Scene.ticks m n ⟨spheres, Scene.AnimState.init⟩)._spheres,
      Spec.radiusInRange s = true := by
  intro s hs
  apply Spec.radiusInRange_of_sphereInv
  refine Scene.ticks_inv m n ⟨spheres, Scene.AnimState.init⟩ ?_ ?_ s hs
  · exact ⟨0, 0, rfl, rfl, fun hp => by simp [Scene.AnimState.init] at hp⟩
  · exact fun x hx => Spec.sphereInv_of_startsAtRest x (h x hx)

/-- C7 on two sample spheres after five ticks. -/
theorem C7_radius_range_witness :
    (∀ s ∈ [sampleSphere, sampleSphere2], Spec.startsAtRest s = true) ∧
      ∀ s ∈ (Scene.ticks sampleLibm 5
          ⟨[sampleSphere, sampleSphere2], Scene.AnimState.init⟩)._spheres,
        Spec.radiusInRange s = true :=
  ⟨by decide!, C7_radius_range sampleLibm [sampleSphere, sampleSphere2] (by decide!) 5⟩

/-! ## Trajectory -/

namespace Scene

theorem length_trajectoryLoop (m : Libm) (s : Sphere) (n : Nat) (t : Flt) (pos : Vec3) :
    (trajectoryLoop m s n t pos).length = n := by
  induction n generalizing t pos with
  | zero => rfl
  | succ n ih => simp [trajectoryLoop, ih]

/-- The last element of `positions` is the first frame computed. -/
theorem computeAnimation_last (m : Libm) (s : Sphere) :
    (computeAnimation m s).positions.length = 150 ∧
      (computeAnimation m s).positions[149]? =
        some ⟨Flt.add s.center.x (Flt.mul _deltaTime s.velocity.x),
          bounceHeight m s (Flt.fin 0),
          Flt.add s.center.z (Flt.mul _deltaTime s.velocity.y)⟩ := by
  have hlen : (computeAnimation m s).positions.length = 150 := by
    simp [computeAnimation, length_trajectoryLoop, numFrames]
  refine ⟨hlen, ?_⟩
  have h149 : (149 : Nat) = (computeAnimation m s).positions.length - 1 := by rw [hlen]
  rw [h149, ← List.getLast?_eq_getElem?]
  have hnf : numFrames = 149 + 1 := rfl
  simp only [computeAnimation]
  rw [hnf, trajectoryLoop, List.getLast?_reverse, List.head?_cons]

/-- With exact square roots the height at `t = 0` is the apex of the
bounce: the target height raised by the radius. -/
theorem bounceHeight_zero (m : Libm) (s : Sphere) (h r : ℚ) (hmh : s.maxHeight = Flt.fin h)
    (hpos : 0 < 1 + h) (hr : s.radius = Flt.fin r)
    (hT : Spec.ExactSqrt m (8 * (1 + h) / (981 / 100)))
    (hV : Spec.ExactSqrt m (2 * (1 + h) * (981 / 100))) :
    bounceHeight m s (Flt.fin 0) = Flt.fin (h + r) := by
  obtain ⟨T, hTe, hT0, hTT⟩ := hT
  obtain ⟨V, hVe, hV0, hVV⟩ := hV
  have hg : (981 / 100 : ℚ) ≠ 0 := by norm_num
  have hTpos : 0 < T := by
    rcases lt_or_eq_of_le hT0 with hlt | heq
    · exact hlt
    · exfalso
      rw [← heq] at hTT
      have : 0 < 8 * (1 + h) / (981 / 100) := div_pos (by linarith) (by norm_num)
      linarith
  have hTne : T ≠ 0 := ne_of_gt hTpos
  have hhalf : (5 / 10 * T + 0) / T = 1 / 2 := by
    field_simp
    ring
  have htrunc : Flt.truncQ (1 / 2) = 0 := by
    simp only [Flt.truncQ]
    norm_num
  have hVT : V * T = 4 * (1 + h) := by
    have hsq : (V * T) * (V * T) = (4 * (1 + h)) * (4 * (1 + h)) := by
      have : (V * T) * (V * T) = (V * V) * (T * T) := by ring
      rw [this, hVV, hTT]
      field_simp
      ring
    have h1 : 0 ≤ V * T := mul_nonneg hV0 hT0
    have h2 : 0 ≤ 4 * (1 + h) := by linarith
    nlinarith [sq_nonneg (V * T - 4 * (1 + h)), sq_nonneg (V * T + 4 * (1 + h))]
  simp only [bounceHeight, hmh, hr, g, Flt.add_fin, Flt.mul_fin, Flt.div_fin _ _ hg, hTe, hVe,
    Flt.fmodf, hTne, if_false, hhalf, htrunc, Flt.sub_fin]
  congr 1
  have hTT2 : T * T * (981 / 100) = 8 * (1 + h) := by
    rw [hTT]
    field_simp
  simp only [Int.cast_zero, zero_mul, sub_zero, add_zero]
  nlinarith

end Scene

/-- C6 as stated fails: for a sphere as `generateSpheres` creates it, and
whatever the math library computes, the last element of `positions` is not
`endPos`. -/
theorem C6_counterexample :
    sampleSphere.center = sampleSphere.endPos ∧ sampleSphere.radius = sampleSphere.refRadius ∧
      sampleSphere.maxHeight = sampleSphere.center.y ∧
      Flt.gt (Flt.add (Flt.fin 1) sampleSphere.maxHeight) (Flt.fin 0) = true ∧
      ∀ m : Libm,
        (Scene.computeAnimation m sampleSphere).positions[149]? ≠ some sampleSphere.endPos := by
  refine ⟨by decide!, by decide!, by decide!, by decide!, ?_⟩
  intro m hEq
  rw [(Scene.computeAnimation_last m sampleSphere).2] at hEq
  have hx : Flt.add sampleSphere.center.x (Flt.mul Scene._deltaTime sampleSphere.velocity.x) =
      sampleSphere.endPos.x := by
    injection hEq with h1
    exact congrArg Vec3.x h1
  revert hx
  decide!

/-- C6 (amended): for a particle at rest at its target (`center = endPos`,
`maxHeight = endPos.y`, `1 + maxHeight > 0`), after `computeAnimations` the
buffer has 150 positions and the last one (index 149, the first written, at
`t = 0`) is `endPos` moved by one step of drift in `x` and `z` and, when the
square roots are exact, raised by `radius` in `y`:
`(endPos.x + deltaTime * velocity.x, endPos.y + radius,
endPos.z + deltaTime * velocity.y)`. -/
theorem C6_last_position (m : Libm) (s : Scene.Sphere) (h r : ℚ)
    (hc : s.center = s.endPos) (hy : s.endPos.y = Flt.fin h) (hmh : s.maxHeight = s.endPos.y)
    (hpos : 0 < 1 + h) (hr : s.radius = Flt.fin r)
    (hT : Spec.ExactSqrt m (8 * (1 + h) / (981 / 100)))
    (hV : Spec.ExactSqrt m (2 * (1 + h) * (981 / 100))) :
    (Scene.computeAnimation m s).positions.length = 150 ∧
      (Scene.computeAnimation m s).positions[149]? =
        some ⟨Flt.add s.endPos.x (Flt.mul Scene._deltaTime s.velocity.x),
          Flt.add s.endPos.y s.radius,
          Flt.add s.endPos.z (Flt.mul Scene._deltaTime s.velocity.y)⟩ := by
  have hlast := Scene.computeAnimation_last m s
  refine ⟨hlast.1, ?_⟩
  rw [hlast.2, Scene.bounceHeight_zero m s h r (hmh.trans hy) hpos hr hT hV, hc, hy, hr,
    Flt.add_fin]

/-- C6 (amended) at a sample sphere whose square roots are rational. -/
theorem C6_last_position_witness :
    (Scene.computeAnimation sampleLibm sampleSphere3).positions.length = 150 ∧
      (Scene.computeAnimation sampleLibm sampleSphere3).positions[149]? =
        some ⟨Flt.add sampleSphere3.endPos.x (Flt.mul Scene._deltaTime sampleSphere3.velocity.x),
          Flt.add sampleSphere3.endPos.y sampleSphere3.radius,
          Flt.add sampleSphere3.endPos.z
            (Flt.mul Scene._deltaTime sampleSphere3.velocity.y)⟩ :=
  C6_last_position sampleLibm sampleSphere3 (-8038 / 10000) (3 / 250) (by decide!) (by decide!)
    (by decide!) (by norm_num) (by decide!)
    ⟨2 / 5, by decide!, by norm_num, by norm_num⟩
    ⟨981 / 500, by decide!, by norm_num, by norm_num⟩

/-! ## Cells of the letters -/

namespace fonts

/-- The pixels of a letter have both coordinates in `0..7`. -/
theorem renderLetter_bounds (font : FontTable) (c : Int) (p : Int × Int)
    (hp : p ∈ renderLetter font c) : 0 ≤ p.1 ∧ p.1 < 8 ∧ 0 ≤ p.2 ∧ p.2 < 8 := by
  rw [renderLetter_eq, Spec.litPixels] at hp
  simp only [List.mem_flatMap, List.mem_map, List.mem_filter, List.mem_range] at hp
  obtain ⟨y, hy, x, ⟨hx, _⟩, hxy⟩ := hp
  subst hxy
  simp only
  omega

end fonts

namespace Spec

theorem letterPositions_inCell (font : fonts.FontTable) (k r : Nat) (c : Int) :
    (letterPositions font k r c).all (inCell k r) = true := by
  simp only [letterPositions, List.all_eq_true, List.mem_map]
  rintro q ⟨p, hp, rfl⟩
  obtain ⟨h1, h2, h3, h4⟩ := fonts.renderLetter_bounds font c p hp
  have a1 : (0 : ℚ) ≤ (p.1 : ℚ) := by exact_mod_cast h1
  have a2 : (p.1 : ℚ) < 8 := by exact_mod_cast h2
  have a3 : (0 : ℚ) ≤ (p.2 : ℚ) := by exact_mod_cast h3
  have a4 : (p.2 : ℚ) < 8 := by exact_mod_cast h4
  simp only [inCell, Flt.le_fin, Flt.lt_fin, Bool.and_eq_true, decide_eq_true_eq]
  refine ⟨⟨⟨?_, ?_⟩, ?_⟩, ?_⟩ <;> linarith

theorem positionsAt_inCell (font : fonts.FontTable) (text : List Int) (i : Nat) :
    (positionsAt font text i).all (inCell (column (text.take i)) (line (text.take i))) =
      true := by
  unfold positionsAt
  split
  · split
    · rfl
    · exact letterPositions_inCell font _ _ _
  · rfl

end Spec

/-- Every position of the `k`-th letter (0-based) of line `r` (0-based) of a
text lies in the unit cell of that letter: `k <= x < k + 1` and
`r <= y < r + 1`; the positions `renderText` emits are those of the
characters of the text, in text order. -/
theorem renderText_cells (font : fonts.FontTable) (text : List Int) :
    fonts.renderText font text =
        (List.range text.length).flatMap (Spec.positionsAt font text) ∧
      ∀ i : Nat,
        (Spec.positionsAt font text i).all
          (Spec.inCell (Spec.column (text.take i)) (Spec.line (text.take i))) = true := by
  refine ⟨?_, Spec.positionsAt_inCell font text⟩
  have h := fonts.renderTextFrom_eq font text []
  simp only [Spec.column, Spec.line, List.reverse_nil, List.takeWhile_nil, List.length_nil,
    List.count_nil, Nat.cast_zero, List.nil_append, Nat.zero_add] at h
  exact h

/-- C11: the header of `renderText` promises `y` in `[0, 1)` for every
position, but for the text made of a newline and `.` the four positions
passed to the callback have `y = 13/8` and `y = 14/8`: after a newline the
line index is added to `y`. The `x` coordinates are in the cell `[0, 1)` of
the first letter of the line. -/
theorem C11_second_line_y :
    fonts.renderText sampleFont [10, 46] =
        [(Flt.fin (2 / 8), Flt.fin (13 / 8)), (Flt.fin (3 / 8), Flt.fin (13 / 8)),
          (Flt.fin (2 / 8), Flt.fin (14 / 8)), (Flt.fin (3 / 8), Flt.fin (14 / 8))] ∧
      (fonts.renderText sampleFont [10, 46]).all (fun p => Flt.lt p.2 (Flt.fin 1)) = false ∧
      (fonts.renderText sampleFont [10, 46]).all (Spec.inCell 0 1) = true := by
  decide!

/-! ## Degenerate wave bounds -/

namespace Flt

/-- Equal bounds have a difference that is zero or `NaN`. -/
theorem sub_of_eq (x0 x1 : Flt) (h : eq x0 x1 = true) :
    sub x1 x0 = fin 0 ∨ sub x1 x0 = nan := by
  cases x0 <;> cases x1 <;> simp [eq] at h
  · left
    simp [h]
  · right; rfl
  · right; rfl

/-- A quotient by zero is an infinity or `NaN`, never a finite value. -/
theorem div_zero_ne_fin (a : Flt) (q : ℚ) : div a (fin 0) ≠ fin q := by
  cases a with
  | fin x =>
    simp only [div, if_true]
    split
    · simp
    · split <;> simp
  | pinf => simp [div]
  | ninf => simp [div]
  | nan => simp [div]

theorem div_nan_ne_fin (a : Flt) (q : ℚ) : div a nan ≠ fin q := by
  cases a <;> simp [div]

/-- Subtracting a value that is not finite gives a value that is not
finite. -/
theorem sub_ne_fin (a d : Flt) (hd : ∀ q : ℚ, d ≠ fin q) (q : ℚ) : sub a d ≠ fin q := by
  cases d with
  | fin x => exact absurd rfl (hd x)
  | pinf => cases a <;> simp [sub, neg, add]
  | ninf => cases a <;> simp [sub, neg, add]
  | nan => cases a <;> simp [sub, neg, add]

end Flt

namespace Scene

/-- With equal bounds `dx` is not finite. -/
theorem waveDx_degenerate (x0 x1 : Flt) (h : Flt.eq x0 x1 = true) (s : Sphere) (q : ℚ) :
    waveDx x0 x1 s ≠ Flt.fin q := by
  unfold waveDx
  rcases Flt.sub_of_eq x0 x1 h with h0 | h0 <;> rw [h0]
  · exact Flt.div_zero_ne_fin _ q
  · exact Flt.div_nan_ne_fin _ q

/-- With equal bounds no sphere is inside the wave window. -/
theorem waveStep_degenerate (m : Libm) (x0 x1 tRel : Flt) (h : Flt.eq x0 x1 = true)
    (s : Sphere) : waveStep m x0 x1 tRel s = (false, s) := by
  simp only [waveStep]
  split
  · rename_i hwin
    obtain ⟨w, hw, _, _⟩ := Spec.window_fin _ hwin
    exact absurd hw (Flt.sub_ne_fin _ _ (waveDx_degenerate x0 x1 h s) w)
  · rfl

theorem waveLoop_degenerate (m : Libm) (x0 x1 tRel : Flt) (h : Flt.eq x0 x1 = true)
    (spheres : List Sphere) (u : Bool) :
    waveLoop m x0 x1 tRel spheres u = (u, spheres) := by
  induction spheres generalizing u with
  | nil => rfl
  | cons s rest ih => simp [waveLoop, waveStep_degenerate m x0 x1 tRel h, ih]

theorem doWave_loop (m : Libm) (st : AnimState) (spheres : List Sphere) :
    doWave m st spheres =
      ((waveLoop m (doWave m st spheres).2.1._waveX0 (doWave m st spheres).2.1._waveX1
          (Flt.sub (doWave m st spheres).2.1._t (doWave m st spheres).2.1._t0) spheres false).1,
        (doWave m st spheres).2.1,
        (waveLoop m (doWave m st spheres).2.1._waveX0 (doWave m st spheres).2.1._waveX1
          (Flt.sub (doWave m st spheres).2.1._t (doWave m st spheres).2.1._t0) spheres false).2) :=
  rfl

end Scene

/-- C12 as stated fails: the division is not guarded. For a single sphere
in the wave phase the captured bounds are both its `center.x`, the divisor
`_waveX1 - _waveX0` is zero and `dx` is evaluated to `NaN`. -/
theorem C12_counterexample :
    Flt.eq
        (Scene.doWave sampleLibm { Scene.AnimState.init with phase := Scene.AnimPhase.wave }
          [sampleSphere]).2.1._waveX0
        (Scene.doWave sampleLibm { Scene.AnimState.init with phase := Scene.AnimPhase.wave }
          [sampleSphere]).2.1._waveX1 = true ∧
      Flt.sub
        (Scene.doWave sampleLibm { Scene.AnimState.init with phase := Scene.AnimPhase.wave }
          [sampleSphere]).2.1._waveX1
        (Scene.doWave sampleLibm { Scene.AnimState.init with phase := Scene.AnimPhase.wave }
          [sampleSphere]).2.1._waveX0 = Flt.fin 0 ∧
      Scene.waveDx
        (Scene.doWave sampleLibm { Scene.AnimState.init with phase := Scene.AnimPhase.wave }
          [sampleSphere]).2.1._waveX0
        (Scene.doWave sampleLibm { Scene.AnimState.init with phase := Scene.AnimPhase.wave }
          [sampleSphere]).2.1._waveX1 sampleSphere = Flt.nan := by
  decide!

/-- C12 (amended): when the wave bounds captured by `doWave` are equal
(`waveX0 == waveX1`), the division computing `dx` is evaluated with a zero
(or `NaN`) divisor and gives an infinity or `NaN` for every particle; as
the comparisons of the wave window fail on such a value, a wave tick finds
no particle inside the window, `doWave` returns not-updated and leaves
every particle unchanged, and the call moves the phase on to delay. On the
empty particle set `doWave` returns not-updated whatever the bounds. -/
theorem C12_degenerate_wave (m : Libm) (st : Scene.AnimState) (spheres : List Scene.Sphere)
    (dt : Flt) (hphase : st.phase = Scene.AnimPhase.wave)
    (hdeg : Flt.eq (Scene.doWave m st spheres).2.1._waveX0
      (Scene.doWave m st spheres).2.1._waveX1 = true) :
    (∀ (s : Scene.Sphere) (q : ℚ),
        Scene.waveDx (Scene.doWave m st spheres).2.1._waveX0
          (Scene.doWave m st spheres).2.1._waveX1 s ≠ Flt.fin q) ∧
      (∀ s : Scene.Sphere,
        Scene.waveStep m (Scene.doWave m st spheres).2.1._waveX0
          (Scene.doWave m st spheres).2.1._waveX1
          (Flt.sub (Scene.doWave m st spheres).2.1._t (Scene.doWave m st spheres).2.1._t0) s =
            (false, s)) ∧
      (Scene.doWave m st spheres).1 = false ∧
      (Scene.doWave m st spheres).2.2 = spheres ∧
      (Scene.AnimState.call m st spheres dt).2.1.phase = Scene.AnimPhase.delay ∧
      (Scene.AnimState.call m st spheres dt).2.2 = spheres ∧
      Scene.doWave m st [] = (false, st, []) := by
  have hloop := Scene.waveLoop_degenerate m _ _
    (Flt.sub (Scene.doWave m st spheres).2.1._t (Scene.doWave m st spheres).2.1._t0) hdeg
    spheres false
  have hw := Scene.doWave_loop m st spheres
  rw [hloop] at hw
  have h1 : (Scene.doWave m st spheres).1 = false := by rw [hw]
  have h2 : (Scene.doWave m st spheres).2.2 = spheres := by rw [hw]
  refine ⟨fun s q => Scene.waveDx_degenerate _ _ hdeg s q,
    fun s => Scene.waveStep_degenerate m _ _ _ hdeg s, h1, h2, ?_, ?_, ?_⟩
  · simp [Scene.AnimState.call, hphase, h1]
  · simp [Scene.AnimState.call, hphase, h1, h2]
  · simp [Scene.doWave, Scene.waveLoop]

/-- C12 (amended) at a single sample sphere in the wave phase. -/
theorem C12_degenerate_wave_witness :
    (Scene.doWave sampleLibm { Scene.AnimState.init with phase := Scene.AnimPhase.wave }
        [sampleSphere]).1 = false ∧
      (Scene.AnimState.call sampleLibm { Scene.AnimState.init with phase := Scene.AnimPhase.wave }
        [sampleSphere] Scene._deltaTime).2.1.phase = Scene.AnimPhase.delay ∧
      (Scene.AnimState.call sampleLibm { Scene.AnimState.init with phase := Scene.AnimPhase.wave }
        [sampleSphere] Scene._deltaTime).2.2 = [sampleSphere] :=
  ⟨(C12_degenerate_wave sampleLibm { Scene.AnimState.init with phase := Scene.AnimPhase.wave }
      [sampleSphere] Scene._deltaTime rfl (by decide!)).2.2.1,
    (C12_degenerate_wave sampleLibm { Scene.AnimState.init with phase := Scene.AnimPhase.wave }
      [sampleSphere] Scene._deltaTime rfl (by decide!)).2.2.2.2.1,
    (C12_degenerate_wave sampleLibm { Scene.AnimState.init with phase := Scene.AnimPhase.wave }
      [sampleSphere] Scene._deltaTime rfl (by decide!)).2.2.2.2.2.1⟩

/-! ## Capture of the wave bounds -/

/-- C13 as stated fails: for the 32 particles of the text `A`, newline, `.`
the first tick of the wave phase sets `_waveX0` to -39/20 and `_waveX1` to
-77/40, while the minimum of `center.x` is -2 and the maximum -15/8. -/
theorem C13_counterexample :
    (Scene.ticks sampleLibm 1 sampleScene)._animState.phase = Scene.AnimPhase.wave ∧
      (Scene.ticks sampleLibm 1 sampleScene)._spheres.length = 32 ∧
      (Scene.ticks sampleLibm 2 sampleScene)._animState._waveX0 = Flt.fin (-39 / 20) ∧
      (Scene.ticks sampleLibm 2 sampleScene)._animState._waveX1 = Flt.fin (-77 / 40) ∧
      Spec.minCenterX (Scene.ticks sampleLibm 1 sampleScene)._spheres = some (Flt.fin (-2)) ∧
      Spec.maxCenterX (Scene.ticks sampleLibm 1 sampleScene)._spheres =
        some (Flt.fin (-15 / 8)) := by
  decide!

/-- C13 (amended): for a non-empty particle set, a tick of the wave phase
that finds the stored bounds equal (as on the first tick, where both are
still 0) sets `_waveX0` to `center.x` of the first particle and `_waveX1`
to `center.x` of the last particle, in creation order. -/
theorem C13_wave_bounds (m : Libm) (st : Scene.AnimState) (spheres : List Scene.Sphere)
    (front back : Scene.Sphere) (hfront : spheres.head? = some front)
    (hback : spheres.getLast? = some back)
    (heq : Flt.eq st._waveX0 st._waveX1 = true) :
    (Scene.doWave m st spheres).2.1._waveX0 = front.center.x ∧
      (Scene.doWave m st spheres).2.1._waveX1 = back.center.x := by
  have hne : spheres.isEmpty = false := by
    cases spheres with
    | nil => simp at hfront
    | cons s rest => rfl
  simp [Scene.doWave, heq, hne, hfront, hback]

/-- C13 (amended) at two sample spheres in the wave phase, the first one to
the right of the second. -/
theorem C13_wave_bounds_witness :
    (Scene.doWave sampleLibm { Scene.AnimState.init with phase := Scene.AnimPhase.wave }
        [sampleSphere2, sampleSphere]).2.1._waveX0 = sampleSphere2.center.x ∧
      (Scene.doWave sampleLibm { Scene.AnimState.init with phase := Scene.AnimPhase.wave }
        [sampleSphere2, sampleSphere]).2.1._waveX1 = sampleSphere.center.x :=
  C13_wave_bounds sampleLibm { Scene.AnimState.init with phase := Scene.AnimPhase.wave }
    [sampleSphere2, sampleSphere] sampleSphere2 sampleSphere rfl rfl (by decide!)

end BbpAnim
